import Mathlib

/-!
Verification development for the AIToolbox training-loop toolkit.

The Lean definitions below are shallow embeddings of the Python source:

* `register_callbacks` embeds
  `aitoolbox/torchtrain/tl_components/callback_handler.py`,
  `BasicCallbacksHandler.register_callbacks` (and the identical
  `AIToolbox/torchtrain/callbacks/callback_handler.py,
  CallbacksHandler.register_callbacks`).
* `execute_stage` embeds the eight `execute_*` dispatch loops of
  `BasicCallbacksHandler`.
* `split_on_execution_position` / `handlerRegister` / `handlerExecute` embed
  the stage-filtering `CallbacksHandler` of the same file.
* `earlyStopStep` / `earlyStopRun` embed
  `AIToolbox/torchtrain/callbacks/callbacks.py, EarlyStoppingCallback`.
* `load_file` / `fetch_file` / `exists_local_data_folder` / `unzip_file` /
  `SQuAD2_fetch_dataset` embed `AIToolbox/cloud/AWS/data_access.py` and
  `AIToolbox/GoogleCloud/data_access.py`.
* `save_model` functions embed `AIToolbox/cloud/AWS/model_save.py`.
* `should_write_metric` / `generate_plots_metrics` embed
  `aitoolbox/experiment/result_reporting/report_generator.py`.

Python machine-level details that the claims quantify over are made explicit:
file-system and network effects become explicit input flags and recorded
action traces, exceptions become `Option` values describing the raised
exception, and the monitored float metrics become rationals.
-/

/-- The eight TrainLoop stages at which callbacks can be dispatched
(`on_epoch_begin`, ..., `on_after_optimizer_step`). -/
inductive Stage where
  | epochBegin
  | epochEnd
  | trainBegin
  | trainEnd
  | batchBegin
  | batchEnd
  | afterGradientUpdate
  | afterOptimizerStep
deriving DecidableEq, Repr

/-- Model of an `AbstractCallback` instance as seen by the callback handlers.
`id` stands for the object identity of the callback, `execution_order` is the
integer attribute used for sorting.

`implemented` is modelled from the spec: the helper
`aitoolbox.utils.util.is_empty_function`, whose source file is not part of the
sources, decides per stage whether the callback overrides the inherited empty
`on_<stage>` hook with a non-empty implementation; we record that decision as
a boolean per stage. -/
structure Callback where
  id : Nat
  execution_order : Int
  implemented : Stage → Bool

/-- Comparison key used by the sorting calls:
`sorted(..., key=lambda cb: cb.execution_order)`. -/
def callbackLE (a b : Callback) : Prop :=
  a.execution_order ≤ b.execution_order

instance : DecidableRel callbackLE :=
  fun a b => inferInstanceAs (Decidable (a.execution_order ≤ b.execution_order))

instance : IsTotal Callback callbackLE :=
  ⟨fun a b => Int.le_total a.execution_order b.execution_order⟩

instance : IsTrans Callback callbackLE :=
  ⟨fun _ _ _ hab hbc => le_trans hab hbc⟩

/-- `BasicCallbacksHandler.register_callbacks`: append the new callbacks
(after registering the train-loop object in them, which does not change
their identity, order key, or hooks) to `train_loop_obj.callbacks`; then, if
not all registered callbacks have `execution_order == 0`, replace the list by
`sorted(self.train_loop_obj.callbacks, key=lambda cb: cb.execution_order)`.
Python's `sorted` is a stable sort, and `List.insertionSort` computes exactly
the stable sort by `callbackLE`, so the embedding is observably identical.
The `enforce_callbacks_quality` type/GPU-index validation concerns Python
typing and CUDA devices and is outside this model. -/
def register_callbacks (existing : List Callback) (new : List Callback) : List Callback :=
  let appended := existing ++ new
  if ∀ cb ∈ appended, cb.execution_order = 0 then appended
  else List.insertionSort callbackLE appended

/-- Invocation event: calling `cb.on_<stage>()` is observed as the pair of
the callback identity and the stage. -/
def invokeHook (cb : Callback) (s : Stage) : Nat × Stage :=
  (cb.id, s)

/-- The dispatch loop shared by all eight
`BasicCallbacksHandler.execute_<stage>` methods:
`for callback in self.train_loop_obj.callbacks: callback.on_<stage>()`.
The returned trace lists the hook invocations in execution order. -/
def execute_stage (cbs : List Callback) (s : Stage) : List (Nat × Stage) :=
  match cbs with
  | [] => []
  | cb :: rest => invokeHook cb s :: execute_stage rest s

theorem execute_stage_eq_map (cbs : List Callback) (s : Stage) :
    execute_stage cbs s = cbs.map (fun cb => (cb.id, s)) := by
  induction cbs with
  | nil => rfl
  | cons cb rest ih => simp [execute_stage, invokeHook, ih]

/-- C1: for every call to `register_callbacks`, if after appending the new
callbacks some registered callback has a non-zero `execution_order`, the
train loop's callback list is sorted in ascending `execution_order`; if every
registered callback has `execution_order` equal to zero, the list keeps the
registration order `existing ++ new` (no sort is performed). -/
theorem register_callbacks_ordering (existing new : List Callback) :
    ((∃ cb ∈ existing ++ new, cb.execution_order ≠ 0) →
      (register_callbacks existing new).Sorted callbackLE) ∧
    ((∀ cb ∈ existing ++ new, cb.execution_order = 0) →
      register_callbacks existing new = existing ++ new) := by
  constructor
  · intro h
    rcases h with ⟨cb, hmem, hne⟩
    have hnot : ¬ ∀ cb ∈ existing ++ new, cb.execution_order = 0 := by
      intro hall
      exact hne (hall cb hmem)
    simp only [register_callbacks, if_neg hnot]
    exact List.sorted_insertionSort callbackLE (existing ++ new)
  · intro hall
    simp only [register_callbacks, if_pos hall]

/-- Auxiliary witness data for `register_callbacks_ordering`. -/
def cbA : Callback := ⟨0, 2, fun _ => true⟩

/-- Auxiliary witness data for `register_callbacks_ordering`. -/
def cbB : Callback := ⟨1, 1, fun _ => true⟩

theorem register_callbacks_ordering_witness :
    (register_callbacks [cbA] [cbB]).Sorted callbackLE ∧
      register_callbacks [] [] = [] :=
  ⟨(register_callbacks_ordering [cbA] [cbB]).1
      ⟨cbA, by simp [cbA], by simp [cbA]⟩,
    (register_callbacks_ordering [] []).2 (by simp)⟩

theorem countP_eq_one_of_nodup_mem {α : Type} [DecidableEq α] {l : List α} {a : α}
    (hnd : l.Nodup) (ha : a ∈ l) :
    l.countP (fun b => decide (b = a)) = 1 := by
  induction l with
  | nil => simp at ha
  | cons x xs ih =>
    rcases List.nodup_cons.mp hnd with ⟨hx, hxs⟩
    rcases List.mem_cons.mp ha with h | h
    · have hzero : xs.countP (fun b => decide (b = a)) = 0 := by
        apply List.countP_eq_zero.mpr
        intro b hb
        simp only [decide_eq_true_eq]
        intro hba
        rw [hba, h] at hb
        exact hx hb
      simp [List.countP_cons, hzero, h]
      intro b hb hbx
      exact hx (hbx ▸ hb)
    · have hne : ¬ (x = a) := by
        intro hxa
        exact hx (hxa ▸ h)
      simp [List.countP_cons, ih hxs h, hne]

/-- C2: for every training stage, `execute_<stage>` invokes the
corresponding `on_<stage>` hook exactly once on every registered callback,
in the order the callbacks appear in the registered list: the invocation
trace is exactly the registered list mapped to its stage events, and (for
distinct callback objects) each callback's event occurs exactly once. -/
theorem execute_stage_dispatch (cbs : List Callback) (s : Stage)
    (hnodup : (cbs.map Callback.id).Nodup) :
    execute_stage cbs s = cbs.map (fun cb => (cb.id, s)) ∧
    ∀ cb ∈ cbs, (execute_stage cbs s).countP (fun e => decide (e = (cb.id, s))) = 1 := by
  refine ⟨execute_stage_eq_map cbs s, ?_⟩
  intro cb hmem
  rw [execute_stage_eq_map]
  have hinj : (cbs.map (fun cb => (cb.id, s))).Nodup := by
    have : cbs.map (fun cb => (cb.id, s)) = (cbs.map Callback.id).map (fun i => (i, s)) := by
      simp [List.map_map, Function.comp]
    rw [this]
    exact hnodup.map (fun a b h => by simpa using h)
  have hmem' : (cb.id, s) ∈ cbs.map (fun cb => (cb.id, s)) :=
    List.mem_map_of_mem _ hmem
  exact countP_eq_one_of_nodup_mem hinj hmem'

theorem execute_stage_dispatch_witness :
    execute_stage [cbA, cbB] Stage.epochBegin =
      [(cbA.id, Stage.epochBegin), (cbB.id, Stage.epochBegin)] ∧
    (execute_stage [cbA, cbB] Stage.epochBegin).countP
      (fun e => decide (e = (cbA.id, Stage.epochBegin))) = 1 := by
  have h := execute_stage_dispatch [cbA, cbB] Stage.epochBegin
    (by simp [cbA, cbB])
  exact ⟨h.1, h.2 cbA (by simp)⟩

/-- State of the stage-filtering `CallbacksHandler`: the inherited
`train_loop_obj.callbacks` list plus the eight per-stage lists
`cbs_on_epoch_begin`, ..., `cbs_on_after_optimizer_step`, here indexed by
`Stage`. -/
structure HandlerState where
  callbacks : List Callback
  cbs_on : Stage → List Callback

/-- One iteration of the registration loop in
`CallbacksHandler.split_on_execution_position`: append the callback to the
per-stage list of every stage whose `on_<stage>` hook is not an empty
function (`if not is_empty_function(callback.on_<stage>): ...append(callback)`). -/
def addToStageLists (st : Stage → List Callback) (cb : Callback) : Stage → List Callback :=
  fun s => if cb.implemented s then st s ++ [cb] else st s

/-- The trailing loop of `split_on_execution_position`: each per-stage list is
sorted in place by `execution_order` unless all its orders are zero
(`if not all(0 == cb.execution_order for cb in cbs_at_position): sort`).
Python's `list.sort` is stable; `List.insertionSort` is the stable sort. -/
def condSortStage (l : List Callback) : List Callback :=
  if ∀ cb ∈ l, cb.execution_order = 0 then l else List.insertionSort callbackLE l

/-- `CallbacksHandler.split_on_execution_position` (with
`register_train_loop=False`, as called from `register_callbacks`): distribute
the new callbacks over the per-stage lists, then conditionally sort each
per-stage list. -/
def split_on_execution_position (st : Stage → List Callback) (callbacks : List Callback) :
    Stage → List Callback :=
  fun s => condSortStage ((callbacks.foldl addToStageLists st) s)

/-- `CallbacksHandler.register_callbacks`: `super().register_callbacks` on the
flat list, then `split_on_execution_position(callbacks, register_train_loop=False)`. -/
def handlerRegister (st : HandlerState) (new : List Callback) : HandlerState :=
  { callbacks := register_callbacks st.callbacks new,
    cbs_on := split_on_execution_position st.cbs_on new }

/-- A freshly constructed `CallbacksHandler`: empty callback list and eight
empty per-stage lists. -/
def emptyHandler : HandlerState :=
  ⟨[], fun _ => []⟩

/-- `CallbacksHandler.execute_<stage>`: the dispatch loop runs over the
per-stage list `cbs_on_<stage>` instead of the flat callback list. -/
def handlerExecute (st : HandlerState) (s : Stage) : List (Nat × Stage) :=
  execute_stage (st.cbs_on s) s

theorem foldl_addToStageLists (cbs : List Callback) (st : Stage → List Callback) (s : Stage) :
    (cbs.foldl addToStageLists st) s = st s ++ cbs.filter (fun cb => cb.implemented s) := by
  induction cbs generalizing st with
  | nil => simp
  | cons cb rest ih =>
    simp only [List.foldl_cons, List.filter_cons]
    rw [ih]
    by_cases h : cb.implemented s
    · simp [addToStageLists, h]
    · simp [addToStageLists, h]

theorem mem_condSortStage (l : List Callback) (cb : Callback) :
    cb ∈ condSortStage l ↔ cb ∈ l := by
  unfold condSortStage
  by_cases h : ∀ c ∈ l, c.execution_order = 0
  · rw [if_pos h]
  · rw [if_neg h]
    exact List.mem_insertionSort callbackLE

/-- C8: for every callback registered with the stage-filtering
`CallbacksHandler` and every training stage, the callback's `on_<stage>` hook
is invoked by `execute_<stage>` if and only if the callback overrides that
hook with a non-empty implementation; a callback keeping the inherited empty
hook for a stage is never dispatched at that stage. -/
theorem handler_stage_filtering (cbs : List Callback) (s : Stage) (cb : Callback)
    (hnodup : (cbs.map Callback.id).Nodup) (hmem : cb ∈ cbs) :
    (cb.id, s) ∈ handlerExecute (handlerRegister emptyHandler cbs) s ↔
      cb.implemented s = true := by
  have hlist : (handlerRegister emptyHandler cbs).cbs_on s =
      condSortStage (cbs.filter (fun c => c.implemented s)) := by
    simp only [handlerRegister, split_on_execution_position]
    rw [foldl_addToStageLists]
    simp [emptyHandler]
  rw [handlerExecute, hlist, execute_stage_eq_map]
  constructor
  · intro hin
    rcases List.mem_map.mp hin with ⟨c, hc, heq⟩
    have hcid : c.id = cb.id := (Prod.mk.injEq _ _ _ _).mp heq |>.1
    have hcmem := (mem_condSortStage _ c).mp hc
    have hcfil := List.mem_filter.mp hcmem
    have hceq : c = cb :=
      List.inj_on_of_nodup_map hnodup hcfil.1 hmem hcid
    exact hceq ▸ hcfil.2
  · intro himp
    apply List.mem_map.mpr
    refine ⟨cb, ?_, rfl⟩
    apply (mem_condSortStage _ cb).mpr
    exact List.mem_filter.mpr ⟨hmem, himp⟩

/-- Auxiliary witness data: a callback implementing no hooks. -/
def cbNone : Callback :=
  ⟨2, 0, fun _ => false⟩

theorem handler_stage_filtering_witness :
    ((cbA.id, Stage.epochEnd) ∈
        handlerExecute (handlerRegister emptyHandler [cbA, cbNone]) Stage.epochEnd) ∧
    ¬ ((cbNone.id, Stage.epochEnd) ∈
        handlerExecute (handlerRegister emptyHandler [cbA, cbNone]) Stage.epochEnd) := by
  constructor
  · exact (handler_stage_filtering [cbA, cbNone] Stage.epochEnd cbA
      (by simp [cbA, cbNone]) (by simp)).mpr rfl
  · intro hmem
    have := (handler_stage_filtering [cbA, cbNone] Stage.epochEnd cbNone
      (by simp [cbA, cbNone]) (by simp)).mp hmem
    simp [cbNone] at this

/-- Constructor parameters of `EarlyStoppingCallback`: the monitored metric
name (a Python string, modelled as its character list), `min_delta` and
`patience`. The monitored float values are modelled as rationals. -/
structure ESParams where
  monitor : List Char
  min_delta : ℚ
  patience : Int

/-- The test `if "loss" in self.monitor` of `EarlyStoppingCallback.on_epoch_end`:
substring containment of "loss" in the monitor name. -/
def monitorIsLoss (monitor : List Char) : Bool :=
  decide ("loss".toList <:+: monitor)

/-- Mutable state of `EarlyStoppingCallback` together with the train loop's
`early_stop` flag, which is the only train-loop field the callback writes. -/
structure ESState where
  patience_count : Int
  best_performance : Option ℚ
  best_epoch : Nat
  early_stop : Bool
deriving DecidableEq, Repr

/-- The improvement condition of `on_epoch_end`: a decrease below
`best - min_delta` for loss-like monitors, an increase above
`best + min_delta` otherwise. -/
def improves (p : ESParams) (best current : ℚ) : Bool :=
  if monitorIsLoss p.monitor then decide (current < best - p.min_delta)
  else decide (current > best + p.min_delta)

/-- `EarlyStoppingCallback.on_epoch_end`, as a state transformer. `current`
is `self.train_loop_obj.train_history[self.monitor][-1]` and `epoch` is
`self.train_loop_obj.epoch`. On the first call (no recorded best) only the
best value and best epoch are recorded; on later calls the best data and the
patience counter are reset on improvement, otherwise the counter is
decremented, and `early_stop` is raised when the counter drops below zero. -/
def earlyStopStep (p : ESParams) (s : ESState) (current : ℚ) (epoch : Nat) : ESState :=
  match s.best_performance with
  | none => { s with best_performance := some current, best_epoch := epoch }
  | some best =>
      let s1 :=
        if monitorIsLoss p.monitor then
          if current < best - p.min_delta then
            { s with best_performance := some current, best_epoch := epoch,
                     patience_count := p.patience }
          else { s with patience_count := s.patience_count - 1 }
        else
          if current > best + p.min_delta then
            { s with best_performance := some current, best_epoch := epoch,
                     patience_count := p.patience }
          else { s with patience_count := s.patience_count - 1 }
      if s1.patience_count < 0 then { s1 with early_stop := true } else s1

/-- State of a freshly constructed `EarlyStoppingCallback` inside a fresh
train loop: `patience_count = patience`, no recorded best, `best_epoch = 0`,
`early_stop = False`. -/
def earlyStopInit (p : ESParams) : ESState :=
  ⟨p.patience, none, 0, false⟩

/-- Feeding a sequence of monitored end-of-epoch values through
`on_epoch_end`, with `epoch` counting up from the given start. -/
def earlyStopRunAux (p : ESParams) : ESState → Nat → List ℚ → ESState
  | s, _, [] => s
  | s, epoch, v :: rest => earlyStopRunAux p (earlyStopStep p s v epoch) (epoch + 1) rest

/-- A complete run of `EarlyStoppingCallback` from its initial state. -/
def earlyStopRun (p : ESParams) (vals : List ℚ) : ESState :=
  earlyStopRunAux p (earlyStopInit p) 0 vals

/-- Specification-side bookkeeping: the recorded best value together with the
number of consecutive non-improving epochs since the last improvement (or
since the first recorded value). -/
def streakState (p : ESParams) (st : Option ℚ × Nat) : List ℚ → Option ℚ × Nat
  | [] => st
  | v :: rest =>
      match st.1 with
      | none => streakState p (some v, st.2) rest
      | some b =>
          if improves p b v then streakState p (some v, 0) rest
          else streakState p (st.1, st.2 + 1) rest

/-- The number of consecutive non-improving epochs at the end of a run. -/
def streakAfter (p : ESParams) (vals : List ℚ) : Nat :=
  (streakState p (none, 0) vals).2

theorem streakState_nil (p : ESParams) (st : Option ℚ × Nat) :
    streakState p st [] = st := rfl

theorem streakState_cons_none (p : ESParams) (k : Nat) (v : ℚ) (rest : List ℚ) :
    streakState p (none, k) (v :: rest) = streakState p (some v, k) rest := rfl

theorem streakState_cons_some (p : ESParams) (b : ℚ) (k : Nat) (v : ℚ) (rest : List ℚ) :
    streakState p (some b, k) (v :: rest) =
      if improves p b v then streakState p (some v, 0) rest
      else streakState p (some b, k + 1) rest := rfl

theorem earlyStopStep_none (p : ESParams) (s : ESState) (v : ℚ) (epoch : Nat)
    (hbst : s.best_performance = none) :
    earlyStopStep p s v epoch = { s with best_performance := some v, best_epoch := epoch } := by
  unfold earlyStopStep
  rw [hbst]

theorem earlyStopStep_some_imp (p : ESParams) (s : ESState) (b v : ℚ) (epoch : Nat)
    (hp : 0 ≤ p.patience) (hbst : s.best_performance = some b)
    (him : improves p b v = true) :
    earlyStopStep p s v epoch =
      { s with best_performance := some v, best_epoch := epoch,
               patience_count := p.patience } := by
  by_cases hm : monitorIsLoss p.monitor
  · have him' : v < b - p.min_delta := by simpa [improves, hm] using him
    simp [earlyStopStep, hbst, hm, him', not_lt.mpr hp]
  · have him' : v > b + p.min_delta := by simpa [improves, hm] using him
    simp [earlyStopStep, hbst, hm, him', not_lt.mpr hp]

theorem earlyStopStep_some_not (p : ESParams) (s : ESState) (b v : ℚ) (epoch : Nat)
    (hbst : s.best_performance = some b) (him : improves p b v = false) :
    earlyStopStep p s v epoch =
      { s with patience_count := s.patience_count - 1,
               early_stop := if s.patience_count - 1 < 0 then true else s.early_stop } := by
  by_cases hm : monitorIsLoss p.monitor
  · have him' : ¬ v < b - p.min_delta := by simpa [improves, hm] using him
    by_cases hc : s.patience_count - 1 < 0
    · simp [earlyStopStep, hbst, hm, him', hc]
    · simp [earlyStopStep, hbst, hm, him', hc]
  · have him' : ¬ v > b + p.min_delta := by simpa [improves, hm] using him
    by_cases hc : s.patience_count - 1 < 0
    · simp [earlyStopStep, hbst, hm, him', hc]
    · simp [earlyStopStep, hbst, hm, him', hc]

theorem exists_le_succ_iff (n : Nat) (Q : Nat → Prop) :
    (∃ i, i ≤ n + 1 ∧ Q i) ↔ Q 0 ∨ ∃ j, j ≤ n ∧ Q (j + 1) := by
  constructor
  · rintro ⟨i, hle, hq⟩
    cases i with
    | zero => exact Or.inl hq
    | succ j => exact Or.inr ⟨j, Nat.succ_le_succ_iff.mp hle, hq⟩
  · rintro (hq | ⟨j, hle, hq⟩)
    · exact ⟨0, Nat.zero_le _, hq⟩
    · exact ⟨j + 1, Nat.succ_le_succ hle, hq⟩

theorem or_absorb_middle {q x : Prop} (a : Bool) (h : a = false → ¬ q) :
    (a = true ∨ q ∨ x) ↔ (a = true ∨ x) := by
  cases a
  · simp only [Bool.false_eq_true, false_or]
    exact or_iff_right (h rfl)
  · simp

theorem earlyStopRunAux_early_stop_iff (p : ESParams) (hp : 0 ≤ p.patience) :
    ∀ (vals : List ℚ) (s : ESState) (epoch : Nat) (bst : Option ℚ) (k : Nat),
      s.best_performance = bst →
      s.patience_count = p.patience - k →
      (s.early_stop = false → (k : Int) ≤ p.patience) →
      ((earlyStopRunAux p s epoch vals).early_stop = true ↔
        s.early_stop = true ∨
          ∃ i, i ≤ vals.length ∧
            p.patience < ((streakState p (bst, k) (vals.take i)).2 : Int)) := by
  intro vals
  induction vals with
  | nil =>
    intro s epoch bst k hbst hpat hinv
    simp only [earlyStopRunAux, List.length_nil]
    constructor
    · intro h
      exact Or.inl h
    · rintro (h | ⟨i, hle, hq⟩)
      · exact h
      · have hi : i = 0 := Nat.le_zero.mp hle
        subst hi
        rw [List.take_nil, streakState_nil] at hq
        by_cases hes : s.early_stop = true
        · exact hes
        · exfalso
          have hfe : s.early_stop = false := by
            revert hes
            cases s.early_stop <;> simp
          have := hinv hfe
          omega
  | cons v rest ih =>
    intro s epoch bst k hbst hpat hinv
    have hstep : earlyStopRunAux p s epoch (v :: rest) =
        earlyStopRunAux p (earlyStopStep p s v epoch) (epoch + 1) rest := rfl
    rw [hstep]
    cases bst with
    | none =>
      rw [earlyStopStep_none p s v epoch hbst]
      rw [ih { s with best_performance := some v, best_epoch := epoch }
        (epoch + 1) (some v) k rfl (by simpa using hpat) (by simpa using hinv)]
      simp only [List.length_cons, exists_le_succ_iff, List.take_zero, List.take_succ_cons,
        streakState_nil, streakState_cons_none]
      constructor
      · rintro (h | hX)
        · exact Or.inl h
        · exact Or.inr (Or.inr hX)
      · rintro (h | hq | hX)
        · exact Or.inl h
        · by_cases hes : s.early_stop = true
          · exact Or.inl hes
          · exfalso
            have hfe : s.early_stop = false := by
              revert hes
              cases s.early_stop <;> simp
            have := hinv hfe
            omega
        · exact Or.inr hX
    | some b =>
      by_cases him : improves p b v = true
      · rw [earlyStopStep_some_imp p s b v epoch hp hbst him]
        rw [ih { s with best_performance := some v, best_epoch := epoch, patience_count := p.patience } (epoch + 1) (some v) 0 rfl (by simp) (fun _ => by simpa using hp)]
        simp only [List.length_cons, exists_le_succ_iff, List.take_zero, List.take_succ_cons,
          streakState_nil, streakState_cons_some, him, if_true]
        constructor
        · rintro (h | hX)
          · exact Or.inl h
          · exact Or.inr (Or.inr hX)
        · rintro (h | hq | hX)
          · exact Or.inl h
          · by_cases hes : s.early_stop = true
            · exact Or.inl hes
            · exfalso
              have hfe : s.early_stop = false := by
                revert hes
                cases s.early_stop <;> simp
              have := hinv hfe
              omega
          · exact Or.inr hX
      · have him' : improves p b v = false := by
          revert him
          cases improves p b v <;> simp
        rw [earlyStopStep_some_not p s b v epoch hbst him']
        have hpat' : ({ s with patience_count := s.patience_count - 1, early_stop := if s.patience_count - 1 < 0 then true else s.early_stop } : ESState).patience_count = p.patience - ((k + 1 : Nat) : Int) := by
          show s.patience_count - 1 = p.patience - ((k + 1 : Nat) : Int)
          push_cast
          omega
        have hinv' : ({ s with patience_count := s.patience_count - 1, early_stop := if s.patience_count - 1 < 0 then true else s.early_stop } : ESState).early_stop = false → ((k + 1 : Nat) : Int) ≤ p.patience := by
          intro hf
          have hf' : (if s.patience_count - 1 < 0 then true else s.early_stop) = false := hf
          by_cases hc2 : s.patience_count - 1 < 0
          · rw [if_pos hc2] at hf'
            exact absurd hf' (by simp)
          · push_cast
            omega
        rw [ih { s with patience_count := s.patience_count - 1, early_stop := if s.patience_count - 1 < 0 then true else s.early_stop } (epoch + 1) (some b) (k + 1) hbst hpat' hinv']
        simp only [List.length_cons, exists_le_succ_iff, List.take_zero, List.take_succ_cons,
          streakState_nil, streakState_cons_some, him']
        by_cases hc : s.patience_count - 1 < 0
        · simp only [if_pos hc, Bool.false_eq_true, if_false]
          constructor
          · intro _
            refine Or.inr (Or.inr ⟨0, Nat.zero_le _, ?_⟩)
            rw [List.take_zero, streakState_nil]
            push_cast
            omega
          · intro _
            exact Or.inl trivial
        · simp only [if_neg hc, Bool.false_eq_true, if_false]
          constructor
          · rintro (h | hX)
            · exact Or.inl h
            · exact Or.inr (Or.inr hX)
          · rintro (h | hq | hX)
            · exact Or.inl h
            · by_cases hes : s.early_stop = true
              · exact Or.inl hes
              · exfalso
                have hfe : s.early_stop = false := by
                  revert hes
                  cases s.early_stop <;> simp
                have := hinv hfe
                omega
            · exact Or.inr hX

/-- C3: feeding a sequence of monitored values through
`EarlyStoppingCallback.on_epoch_end`, given a non-negative `patience`:
the first call only records the current value as best and never triggers
stopping; on later calls the best value, best epoch and patience counter are
reset whenever the current value improves on the best by more than
`min_delta` (a decrease for monitors containing "loss", an increase
otherwise); and `early_stop` ends up `True` exactly when at some point of
the run the number of consecutive non-improving epochs exceeds `patience`. -/
theorem early_stopping_behavior (p : ESParams) (hp : 0 ≤ p.patience) :
    (∀ (s : ESState) (v : ℚ) (epoch : Nat), s.best_performance = none →
      earlyStopStep p s v epoch =
        { s with best_performance := some v, best_epoch := epoch }) ∧
    (∀ (s : ESState) (b v : ℚ) (epoch : Nat), s.best_performance = some b →
      improves p b v = true →
      earlyStopStep p s v epoch =
        { s with best_performance := some v, best_epoch := epoch,
                 patience_count := p.patience }) ∧
    (∀ vals : List ℚ, (earlyStopRun p vals).early_stop = true ↔
      ∃ i, i ≤ vals.length ∧ p.patience < (streakAfter p (vals.take i) : Int)) := by
  refine ⟨fun s v epoch hbst => earlyStopStep_none p s v epoch hbst,
    fun s b v epoch hbst him => earlyStopStep_some_imp p s b v epoch hp hbst him, ?_⟩
  intro vals
  have h := earlyStopRunAux_early_stop_iff p hp vals (earlyStopInit p) 0 none 0 rfl
    (by simp [earlyStopInit]) (fun _ => by simpa using hp)
  rw [earlyStopRun, h]
  simp [earlyStopInit, streakAfter]

/-- Auxiliary witness data: monitor "val_loss", `min_delta = 0`,
`patience = 1`. -/
def esPEx : ESParams :=
  ⟨"val_loss".toList, 0, 1⟩

theorem early_stopping_behavior_witness :
    (earlyStopRun esPEx [5, 5, 5]).early_stop = true :=
  ((early_stopping_behavior esPEx (by decide)).2.2 [5, 5, 5]).mpr
    ⟨3, by decide, by simp [streakAfter, streakState, improves, monitorIsLoss, esPEx]⟩

/-- A Python exception raised by a cloud SDK download call: either a
botocore `ClientError` carrying its response error code, or any other
exception (identified by name). -/
inductive PyExc where
  | clientError (code : String)
  | other (name : String)
deriving DecidableEq, Repr

/-- Observable outcome of one download-wrapper call: whether the SDK
download was attempted, which exception (if any) reached the caller, and
whether the local file was written. -/
structure DownloadResult where
  downloadAttempted : Bool
  raised : Option PyExc
  localFileModified : Bool
deriving DecidableEq, Repr

/-- `BaseDataLoader.load_file` of `AIToolbox/cloud/AWS/data_access.py`.
`localFileExists` is the result of `os.path.isfile(local_file_path)`; `sdk`
is the outcome of `self.s3.Bucket(...).download_file(...)` (`none` for
success, otherwise the raised exception). If the local file exists, nothing
is done. Otherwise the download runs inside
`try ... except botocore.exceptions.ClientError as e:` which swallows the
error-code-404 case with a print and re-raises every other client error;
exceptions that are not `ClientError` are not caught at all. -/
def load_file (localFileExists : Bool) (sdk : Option PyExc) : DownloadResult :=
  if localFileExists then
    { downloadAttempted := false, raised := none, localFileModified := false }
  else
    match sdk with
    | none =>
        { downloadAttempted := true, raised := none, localFileModified := true }
    | some (PyExc.clientError code) =>
        if code = "404" then
          { downloadAttempted := true, raised := none, localFileModified := false }
        else
          { downloadAttempted := true, raised := some (PyExc.clientError code),
            localFileModified := false }
    | some (PyExc.other name) =>
        { downloadAttempted := true, raised := some (PyExc.other name),
          localFileModified := false }

/-- `BaseDatasetGoogleStorageFetcher.fetch_file` of
`AIToolbox/GoogleCloud/data_access.py`: the same existence check, then
`blob.download_to_filename(local_file_path)` with no exception handling. -/
def fetch_file (localFileExists : Bool) (sdk : Option PyExc) : DownloadResult :=
  if localFileExists then
    { downloadAttempted := false, raised := none, localFileModified := false }
  else
    match sdk with
    | none =>
        { downloadAttempted := true, raised := none, localFileModified := true }
    | some e =>
        { downloadAttempted := true, raised := some e, localFileModified := false }

/-- C4 counterexample: the claim says every exception raised by the
underlying SDK during the transfer propagates unchanged to the caller of
`load_file`, but a botocore `ClientError` with error code 404 is swallowed:
the call raises nothing. -/
theorem load_file_swallows_404 :
    (load_file false (some (PyExc.clientError "404"))).downloadAttempted = true ∧
    (load_file false (some (PyExc.clientError "404"))).raised ≠
      some (PyExc.clientError "404") ∧
    (load_file false (some (PyExc.clientError "404"))).raised = none := by
  refine ⟨rfl, ?_, rfl⟩
  decide

/-- C4 (amended): for downloads where the local file does not exist, every
SDK exception propagates unchanged out of GCS `fetch_file`; out of S3
`load_file` every SDK exception propagates unchanged except a botocore
`ClientError` with error code 404, which is caught and suppressed (only a
message is printed). -/
theorem download_exception_propagation (e : PyExc) :
    (fetch_file false (some e)).raised = some e ∧
    (load_file false (some e)).raised =
      (if e = PyExc.clientError "404" then none else some e) := by
  refine ⟨rfl, ?_⟩
  cases e with
  | clientError code =>
    by_cases h : code = "404" <;> simp [load_file, h]
  | other name => simp [load_file]

/-- C5: for every call to `load_file` (S3) or `fetch_file` (GCS) where a
file already exists at the local destination, no download is performed, no
exception is raised and the local file is left unchanged; the download is
attempted exactly when no file exists at that path. -/
theorem existing_local_file_skips_download (sdk : Option PyExc) :
    (load_file true sdk).downloadAttempted = false ∧
    (load_file true sdk).localFileModified = false ∧
    (load_file true sdk).raised = none ∧
    (fetch_file true sdk).downloadAttempted = false ∧
    (fetch_file true sdk).localFileModified = false ∧
    (fetch_file true sdk).raised = none ∧
    (∀ ex : Bool, (load_file ex sdk).downloadAttempted = !ex ∧
      (fetch_file ex sdk).downloadAttempted = !ex) := by
  refine ⟨rfl, rfl, rfl, rfl, rfl, rfl, ?_⟩
  intro ex
  cases ex
  · cases sdk with
    | none => exact ⟨rfl, rfl⟩
    | some e =>
      cases e with
      | clientError code =>
        constructor
        · by_cases h : code = "404" <;> simp [load_file, h]
        · rfl
      | other name => exact ⟨rfl, rfl⟩
  · exact ⟨rfl, rfl⟩

/-- `BaseDataLoader.exists_local_data_folder`, returning the triple
(return value, whether a pre-existing folder was deleted by `shutil.rmtree`,
whether `os.mkdir` created a fresh folder at the path). `folderExists` is
`os.path.exists` on the joined path. -/
def exists_local_data_folder (folderExists : Bool) (protect_local_folder : Bool) :
    Bool × Bool × Bool :=
  if folderExists && protect_local_folder then (true, false, false)
  else if folderExists && !protect_local_folder then (false, true, true)
  else (false, false, true)

/-- `SQuAD2DatasetFetcher.fetch_dataset`: the list of S3 keys it downloads,
guarded by `if not self.exists_local_data_folder('SQuAD2', protect_local_folder)`. -/
def SQuAD2_fetch_dataset (folderExists protect_local_folder : Bool) : List String :=
  if !(exists_local_data_folder folderExists protect_local_folder).1 then
    ["SQuAD2/train-v2.0.json", "SQuAD2/dev-v2.0.json"]
  else []

/-- C6: `exists_local_data_folder` returns `True` exactly when the folder
already exists and `protect_local_folder` is `True`, and then touches
nothing (no delete, no create); in every other case it returns `False` and
creates a fresh folder, deleting the pre-existing folder exactly when it
exists and `protect_local_folder` is `False`. Consequently `fetch_dataset`
skips all downloads exactly when the protected local folder already
exists. -/
theorem exists_local_data_folder_spec (ex pr : Bool) :
    (exists_local_data_folder ex pr).1 = (ex && pr) ∧
    (exists_local_data_folder ex pr).2.1 = (ex && !pr) ∧
    (exists_local_data_folder ex pr).2.2 = !(ex && pr) ∧
    (SQuAD2_fetch_dataset ex pr).isEmpty = (ex && pr) := by
  cases ex <;> cases pr <;> decide

/-- Python string slicing `s[-n:]` on a string modelled as its character
list: the last `n` characters (the whole string when it is shorter). -/
def pySliceLast (n : Nat) (s : List Char) : List Char :=
  s.drop (s.length - n)

/-- The extraction a `unzip_file` call performs. -/
inductive ExtractAction where
  | zipExtract
  | tarExtract
deriving DecidableEq, Repr

/-- `BaseDataLoader.unzip_file`: `if file_path[-4:] == '.zip'` extract with
`zipfile`, `elif file_path[-7:] == '.tar.gz'` extract with `tarfile`,
otherwise fall through and do nothing. -/
def unzip_file (file_path : List Char) : Option ExtractAction :=
  if pySliceLast 4 file_path = ".zip".toList then some ExtractAction.zipExtract
  else if pySliceLast 7 file_path = ".tar.gz".toList then some ExtractAction.tarExtract
  else none

theorem pySliceLast_eq_iff (p t : List Char) (n : Nat) (hn : t.length = n) :
    pySliceLast n p = t ↔ t <:+ p := by
  constructor
  · intro h
    rw [← h]
    exact List.drop_suffix _ _
  · rintro ⟨pre, hpre⟩
    subst hpre
    unfold pySliceLast
    rw [List.length_append, hn]
    have hdrop : pre.length + n - n = pre.length := by omega
    rw [hdrop, List.drop_left]

/-- C10: for every file path that ends in neither ".zip" nor ".tar.gz",
`unzip_file` returns without extracting anything (a silent no-op), and an
extraction is attempted only for paths ending in ".zip" or ".tar.gz". -/
theorem unzip_file_noop (p : List Char) :
    (¬ (".zip".toList <:+ p) → ¬ (".tar.gz".toList <:+ p) → unzip_file p = none) ∧
    (∀ a, unzip_file p = some a →
      (".zip".toList <:+ p) ∨ (".tar.gz".toList <:+ p)) := by
  constructor
  · intro h1 h2
    unfold unzip_file
    rw [if_neg, if_neg]
    · intro hx
      exact h2 ((pySliceLast_eq_iff p ".tar.gz".toList 7 rfl).mp hx)
    · intro hx
      exact h1 ((pySliceLast_eq_iff p ".zip".toList 4 rfl).mp hx)
  · intro a ha
    unfold unzip_file at ha
    by_cases hz : pySliceLast 4 p = ".zip".toList
    · exact Or.inl ((pySliceLast_eq_iff p ".zip".toList 4 rfl).mp hz)
    · rw [if_neg hz] at ha
      by_cases ht : pySliceLast 7 p = ".tar.gz".toList
      · exact Or.inr ((pySliceLast_eq_iff p ".tar.gz".toList 7 rfl).mp ht)
      · rw [if_neg ht] at ha
        exact absurd ha (by simp)

theorem unzip_file_noop_witness :
    unzip_file "data.txt".toList = none ∧
      (".zip".toList <:+ "a.zip".toList ∨ ".tar.gz".toList <:+ "a.zip".toList) :=
  ⟨(unzip_file_noop "data.txt".toList).1 (by decide) (by decide),
    (unzip_file_noop "a.zip".toList).2 ExtractAction.zipExtract (by decide)⟩

theorem string_ext (a b : String) (h : a.data = b.data) : a = b := by
  cases a; cases b; cases h; rfl

theorem string_data_append (a b : String) : (a ++ b).data = a.data ++ b.data := by
  cases a; cases b; rfl

theorem string_append_assoc (a b c : String) : a ++ b ++ c = a ++ (b ++ c) := by
  apply string_ext
  rw [string_data_append, string_data_append, string_data_append, string_data_append]
  exact List.append_assoc _ _ _

/-- Whether a path component starts with the POSIX separator, as tested by
`os.path.join`. -/
def startsWithSlash (s : String) : Bool :=
  decide (s.data.head? = some '/')

/-- Whether a path component ends with the POSIX separator, as tested by
`os.path.join`. -/
def endsWithSlash (s : String) : Bool :=
  decide (s.data.getLast? = some '/')

/-- POSIX `os.path.join(a, b)` for two components: a component starting with
the separator replaces the path; the separator is inserted unless the left
part is empty or already ends with the separator. -/
def pyJoin (a b : String) : String :=
  if startsWithSlash b then b
  else if a == "" || endsWithSlash a then a ++ b
  else a ++ "/" ++ b

theorem pyJoin_eq (a b : String) (ha : (a == "") = false)
    (hae : endsWithSlash a = false) (hb : startsWithSlash b = false) :
    pyJoin a b = a ++ "/" ++ b := by
  simp [pyJoin, ha, hae, hb]

theorem data_ne_nil_of_beq_empty_false (a : String) (h : (a == "") = false) :
    a.data ≠ [] := by
  intro hd
  cases a with
  | mk data =>
    cases hd
    exact absurd h (by decide)

theorem startsWithSlash_append (a b : String) (ha : a.data ≠ []) :
    startsWithSlash (a ++ b) = startsWithSlash a := by
  unfold startsWithSlash
  rw [string_data_append]
  cases hd : a.data with
  | nil => exact absurd hd ha
  | cons x xs => rfl

theorem endsWithSlash_append (a b : String) (hb : b.data ≠ []) :
    endsWithSlash (a ++ b) = endsWithSlash b := by
  unfold endsWithSlash
  rw [string_data_append, List.getLast?_append_of_ne_nil a.data hb]

theorem append_slash_beq_empty (a b : String) : ((a ++ "/" ++ b) == "") = false := by
  have hne : (a ++ "/" ++ b).data ≠ [] := by
    rw [string_data_append, string_data_append]
    simp [show ("/" : String).data = ['/'] from rfl]
  cases hb : ((a ++ "/" ++ b) == "") with
  | false => rfl
  | true =>
    exfalso
    exact hne (congrArg String.data (eq_of_beq hb))

/-- A clock reading, as consumed by
`datetime.datetime.fromtimestamp(time.time())`. -/
structure Timestamp where
  year : Nat
  month : Nat
  day : Nat
  hour : Nat
  minute : Nat
  second : Nat

/-- Zero-padded two-digit field of `strftime`. -/
def pad2 (n : Nat) : String :=
  if n < 10 then "0" ++ toString n else toString n

/-- Zero-padded four-digit year field of `strftime`. -/
def pad4 (n : Nat) : String :=
  if n < 10 then "000" ++ toString n
  else if n < 100 then "00" ++ toString n
  else if n < 1000 then "0" ++ toString n
  else toString n

/-- `strftime` with the format string of `save_model`: year, month and day
separated by dashes, an underscore, then hour, minute and second separated
by colons. -/
def formatTimestamp (t : Timestamp) : String :=
  pad4 t.year ++ "-" ++ pad2 t.month ++ "-" ++ pad2 t.day ++ "_" ++
    pad2 t.hour ++ ":" ++ pad2 t.minute ++ ":" ++ pad2 t.second

/-- The experiment timestamp `save_model` works with: freshly generated from
the current time exactly when the caller passed `None`, the caller's value
otherwise. -/
def usedTimestamp (experiment_timestamp : Option String) (now : Timestamp) : String :=
  match experiment_timestamp with
  | none => formatTimestamp now
  | some t => t

/-- `BaseModelSaver.create_experiment_cloud_storage_folder_structure`:
`os.path.join(project_name, experiment_name + '_' + experiment_timestamp,
'model' if not self.checkpoint_model else 'checkpoint_model')`. -/
def create_experiment_cloud_storage_folder_structure (checkpoint_model : Bool)
    (project_name experiment_name experiment_timestamp : String) : String :=
  pyJoin (pyJoin project_name (experiment_name ++ "_" ++ experiment_timestamp))
    (if !checkpoint_model then "model" else "checkpoint_model")

/-- The externally visible side effects of `save_model`, in program order. -/
inductive SaveAction where
  | saveLocalModel
  | uploadFileToS3
deriving DecidableEq, Repr

/-- Return value and effect trace of one `save_model` call. -/
structure SaveModelResult where
  actions : List SaveAction
  full_model_s3_path : String
  experiment_timestamp : String
  model_local_path : String
deriving DecidableEq, Repr

/-- `PyTorchS3ModelSaver.save_model`: generate the timestamp when none is
given, save the model locally, compute the cloud folder path, upload the
local file, and return the triple. `model_name` and `model_local_path` stand
for the values returned by the local saver `PyTorchLocalModelSaver.save_model`
(its module is not among the sources); `now` is the clock reading used when a
fresh timestamp is generated. The `check_model_dict_contents` validation of
the model dict is Python-typing-only and outside the model. -/
def PyTorchS3ModelSaver_save_model (checkpoint_model : Bool)
    (bucket_name project_name experiment_name : String)
    (experiment_timestamp : Option String) (now : Timestamp)
    (model_name model_local_path : String) : SaveModelResult :=
  let ts := usedTimestamp experiment_timestamp now
  let experiment_s3_path :=
    create_experiment_cloud_storage_folder_structure checkpoint_model
      project_name experiment_name ts
  let model_s3_path := pyJoin experiment_s3_path model_name
  { actions := [SaveAction.saveLocalModel, SaveAction.uploadFileToS3],
    full_model_s3_path := pyJoin bucket_name model_s3_path,
    experiment_timestamp := ts,
    model_local_path := model_local_path }

/-- `KerasS3ModelSaver.save_model`: identical to the PyTorch version apart
from delegating to the Keras local saver (and performing no model-dict
check). -/
def KerasS3ModelSaver_save_model (checkpoint_model : Bool)
    (bucket_name project_name experiment_name : String)
    (experiment_timestamp : Option String) (now : Timestamp)
    (model_name model_local_path : String) : SaveModelResult :=
  let ts := usedTimestamp experiment_timestamp now
  let experiment_s3_path :=
    create_experiment_cloud_storage_folder_structure checkpoint_model
      project_name experiment_name ts
  let model_s3_path := pyJoin experiment_s3_path model_name
  { actions := [SaveAction.saveLocalModel, SaveAction.uploadFileToS3],
    full_model_s3_path := pyJoin bucket_name model_s3_path,
    experiment_timestamp := ts,
    model_local_path := model_local_path }

theorem data_append_slash_ne_nil (a : String) : (a ++ "/").data ≠ [] := by
  rw [string_data_append]
  simp [show ("/" : String).data = ['/'] from rfl]

theorem data_append_ne_nil_left (a b : String) (ha : a.data ≠ []) : (a ++ b).data ≠ [] := by
  rw [string_data_append]
  intro h
  rcases List.append_eq_nil.mp h with ⟨h1, _⟩
  exact ha h1

theorem startsWithSlash_append_slash (a b : String) (ha : a.data ≠ []) :
    startsWithSlash (a ++ "/" ++ b) = startsWithSlash a := by
  rw [startsWithSlash_append (a ++ "/") b (data_append_slash_ne_nil a),
    startsWithSlash_append a "/" ha]

theorem endsWithSlash_append_slash (a b : String) (hb : b.data ≠ []) :
    endsWithSlash (a ++ "/" ++ b) = endsWithSlash b :=
  endsWithSlash_append (a ++ "/") b hb

theorem full_path_eq (bucket project ets dir model_name : String)
    (hb1 : (bucket == "") = false) (hb2 : endsWithSlash bucket = false)
    (hp1 : (project == "") = false) (hp2 : startsWithSlash project = false)
    (hp3 : endsWithSlash project = false)
    (he1 : startsWithSlash ets = false) (he2 : endsWithSlash ets = false)
    (hetsne : ets.data ≠ [])
    (hd1 : startsWithSlash dir = false) (hd2 : endsWithSlash dir = false)
    (hdne : dir.data ≠ [])
    (hm1 : startsWithSlash model_name = false) :
    pyJoin bucket (pyJoin (pyJoin (pyJoin project ets) dir) model_name) =
      bucket ++ "/" ++ project ++ "/" ++ ets ++ "/" ++ dir ++ "/" ++ model_name := by
  have hpne : project.data ≠ [] := data_ne_nil_of_beq_empty_false project hp1
  have hne1 : (project ++ "/" ++ ets).data ≠ [] :=
    data_append_ne_nil_left _ _ (data_append_slash_ne_nil project)
  have hne2 : (project ++ "/" ++ ets ++ "/" ++ dir).data ≠ [] :=
    data_append_ne_nil_left _ _ (data_append_slash_ne_nil _)
  have h1 : pyJoin project ets = project ++ "/" ++ ets := pyJoin_eq _ _ hp1 hp3 he1
  have h2 : pyJoin (project ++ "/" ++ ets) dir = project ++ "/" ++ ets ++ "/" ++ dir := by
    apply pyJoin_eq
    · exact append_slash_beq_empty project ets
    · rw [endsWithSlash_append_slash project ets hetsne]
      exact he2
    · exact hd1
  have h3 : pyJoin (project ++ "/" ++ ets ++ "/" ++ dir) model_name =
      project ++ "/" ++ ets ++ "/" ++ dir ++ "/" ++ model_name := by
    apply pyJoin_eq
    · exact append_slash_beq_empty _ _
    · rw [endsWithSlash_append_slash _ dir hdne]
      exact hd2
    · exact hm1
  have h4 : pyJoin bucket (project ++ "/" ++ ets ++ "/" ++ dir ++ "/" ++ model_name) =
      bucket ++ "/" ++ (project ++ "/" ++ ets ++ "/" ++ dir ++ "/" ++ model_name) := by
    apply pyJoin_eq _ _ hb1 hb2
    rw [startsWithSlash_append_slash _ model_name hne2,
      startsWithSlash_append_slash _ dir hne1,
      startsWithSlash_append_slash project ets hpne]
    exact hp2
  rw [h1, h2, h3, h4]
  simp [string_append_assoc]

/-- C7: `PyTorchS3ModelSaver.save_model` (and the identical
`KerasS3ModelSaver.save_model`) first saves the model to local disk, then
uploads it to S3, and returns the triple of the full S3 path, the experiment
timestamp and the local model path. The full path is
`bucket_name/project_name/experiment_name_experiment_timestamp/D/model_name`
with `D` equal to `checkpoint_model` when the saver was constructed with
`checkpoint_model=True` and `model` otherwise; the timestamp is freshly
generated from the clock in the fixed strftime format exactly when the caller
passed `None`, and is the caller's value otherwise. The path-hygiene
hypotheses state that the user-supplied components are non-empty where
joined on the left and carry no leading or trailing separator, matching the
documented use of plain names. -/
theorem s3_save_model_spec (checkpoint_model : Bool)
    (bucket project experiment model_name model_local_path : String)
    (arg : Option String) (now : Timestamp)
    (hb1 : (bucket == "") = false) (hb2 : endsWithSlash bucket = false)
    (hp1 : (project == "") = false) (hp2 : startsWithSlash project = false)
    (hp3 : endsWithSlash project = false)
    (he1 : startsWithSlash (experiment ++ "_" ++ usedTimestamp arg now) = false)
    (he2 : endsWithSlash (experiment ++ "_" ++ usedTimestamp arg now) = false)
    (hm1 : startsWithSlash model_name = false) :
    PyTorchS3ModelSaver_save_model checkpoint_model bucket project experiment arg now
        model_name model_local_path =
      { actions := [SaveAction.saveLocalModel, SaveAction.uploadFileToS3],
        full_model_s3_path :=
          bucket ++ "/" ++ project ++ "/" ++ experiment ++ "_" ++ usedTimestamp arg now ++
            "/" ++ (if checkpoint_model then "checkpoint_model" else "model") ++ "/" ++
            model_name,
        experiment_timestamp := usedTimestamp arg now,
        model_local_path := model_local_path } ∧
    KerasS3ModelSaver_save_model checkpoint_model bucket project experiment arg now
        model_name model_local_path =
      PyTorchS3ModelSaver_save_model checkpoint_model bucket project experiment arg now
        model_name model_local_path ∧
    (arg = none → usedTimestamp arg now = formatTimestamp now) ∧
    (∀ t, arg = some t → usedTimestamp arg now = t) := by
  have hetsne : (experiment ++ "_" ++ usedTimestamp arg now).data ≠ [] :=
    data_append_ne_nil_left _ _ (by
      rw [string_data_append]
      simp [show ("_" : String).data = ['_'] from rfl])
  refine ⟨?_, rfl, ?_, ?_⟩
  · have hchain := full_path_eq bucket project (experiment ++ "_" ++ usedTimestamp arg now)
      (if !checkpoint_model then "model" else "checkpoint_model") model_name
      hb1 hb2 hp1 hp2 hp3 he1 he2 hetsne
      (by cases checkpoint_model <;> decide)
      (by cases checkpoint_model <;> decide)
      (by cases checkpoint_model <;> decide) hm1
    simp only [PyTorchS3ModelSaver_save_model,
      create_experiment_cloud_storage_folder_structure]
    rw [hchain]
    cases checkpoint_model <;> simp [string_append_assoc]
  · intro h
    subst h
    rfl
  · intro t ht
    subst ht
    rfl

/-- Auxiliary witness data: a fixed clock reading. -/
def tEx : Timestamp :=
  ⟨2019, 1, 1, 0, 0, 0⟩

theorem s3_save_model_spec_witness :
    PyTorchS3ModelSaver_save_model false "model-result" "proj" "exp" (some "ts") tEx
        "model.pt" "local/model.pt" =
      { actions := [SaveAction.saveLocalModel, SaveAction.uploadFileToS3],
        full_model_s3_path :=
          "model-result" ++ "/" ++ "proj" ++ "/" ++ "exp" ++ "_" ++
            usedTimestamp (some "ts") tEx ++ "/" ++
            (if false then "checkpoint_model" else "model") ++ "/" ++ "model.pt",
        experiment_timestamp := usedTimestamp (some "ts") tEx,
        model_local_path := "local/model.pt" } :=
  (s3_save_model_spec false "model-result" "proj" "exp" "model.pt" "local/model.pt"
    (some "ts") tEx (by decide) (by decide) (by decide) (by decide) (by decide)
    (by decide) (by decide) (by decide)).1

/-- `TrainingHistoryWriter.should_write_metric`:
`iteration_idx is None and metric_name not in iteration_level_metric_names or
iteration_idx is not None and metric_name in iteration_level_metric_names`. -/
def should_write_metric (metric_name : String) (iteration_idx : Option Nat)
    (iteration_level_metric_names : List String) : Bool :=
  (iteration_idx.isNone && !(iteration_level_metric_names.contains metric_name)) ||
    (!iteration_idx.isNone && iteration_level_metric_names.contains metric_name)

/-- The metric names one `write_txt` / `write_csv_tsv` record contains: the
training-history entries passing `should_write_metric`. The history is the
flattened train-history dict as a list of name / result-history pairs. -/
def write_record_metrics (history : List (String × List ℚ)) (iteration_idx : Option Nat)
    (iteration_level_metric_names : List String) : List String :=
  (history.filter
    (fun m => should_write_metric m.1 iteration_idx iteration_level_metric_names)).map
      Prod.fst

/-- The metric names `TrainingHistoryPlotter.generate_plots` yields plots
for: the guard `len(result_history) > 1` plus the same granularity condition
with `iteration_frequency` in place of `iteration_idx`. -/
def generate_plots_metrics (history : List (String × List ℚ))
    (iteration_frequency : Option Nat)
    (iteration_level_metric_names : List String) : List String :=
  (history.filter (fun m =>
    decide (1 < m.2.length) &&
      ((iteration_frequency.isNone && !(iteration_level_metric_names.contains m.1)) ||
        (!iteration_frequency.isNone &&
          iteration_level_metric_names.contains m.1)))).map Prod.fst

/-- C9 counterexample: the claim predicts that a plot-level report record is
produced for a metric exactly when the granularity condition holds, but
`generate_plots` additionally skips every metric whose result history has at
most one entry: with an epoch-level plot request, a metric "loss" outside
the iteration-level names and a one-element history, the condition holds yet
no plot record contains the metric. -/
theorem plot_metric_inclusion_counterexample :
    ("loss" ∉ generate_plots_metrics [("loss", [(1 : ℚ)])] none []) ∧
    (none : Option Nat).isNone = true ∧ "loss" ∉ ([] : List String) := by
  refine ⟨?_, rfl, by decide⟩
  decide

/-- C9 (amended): a metric is included in a writer record exactly when the
granularity condition of `should_write_metric` holds (epoch-level record and
metric not listed iteration-level, or iteration-level record and metric
listed); it is included in a plot record exactly when that condition holds
and additionally its result history has more than one entry; and no metric
name ever passes the condition for both an epoch-level and an
iteration-level record. -/
theorem report_metric_granularity (history : List (String × List ℚ))
    (idx freq : Option Nat) (names : List String) (m : String) :
    (should_write_metric m idx names = true ↔
      ((idx = none ∧ m ∉ names) ∨ (idx ≠ none ∧ m ∈ names))) ∧
    (m ∈ write_record_metrics history idx names ↔
      (∃ h, (m, h) ∈ history) ∧ should_write_metric m idx names = true) ∧
    (m ∈ generate_plots_metrics history freq names ↔
      ∃ h, (m, h) ∈ history ∧ 1 < h.length ∧
        ((freq = none ∧ m ∉ names) ∨ (freq ≠ none ∧ m ∈ names))) ∧
    (∀ i : Nat, ¬ (should_write_metric m none names = true ∧
      should_write_metric m (some i) names = true)) ∧
    (∀ i : Nat, ¬ (m ∈ generate_plots_metrics history none names ∧
      m ∈ generate_plots_metrics history (some i) names)) := by
  have hcond : should_write_metric m idx names = true ↔
      ((idx = none ∧ m ∉ names) ∨ (idx ≠ none ∧ m ∈ names)) := by
    cases idx <;> simp [should_write_metric]
  have hwriter : m ∈ write_record_metrics history idx names ↔
      (∃ h, (m, h) ∈ history) ∧ should_write_metric m idx names = true := by
    constructor
    · intro hm
      rcases List.mem_map.mp hm with ⟨pair, hmem, hfst⟩
      rcases List.mem_filter.mp hmem with ⟨hmemh, hf⟩
      cases pair with
      | mk m' hl =>
        cases hfst
        exact ⟨⟨hl, hmemh⟩, hf⟩
    · rintro ⟨⟨hl, hmemh⟩, hf⟩
      exact List.mem_map.mpr ⟨(m, hl), List.mem_filter.mpr ⟨hmemh, hf⟩, rfl⟩
  have hplot : ∀ fr : Option Nat, m ∈ generate_plots_metrics history fr names ↔
      ∃ h, (m, h) ∈ history ∧ 1 < h.length ∧
        ((fr = none ∧ m ∉ names) ∨ (fr ≠ none ∧ m ∈ names)) := by
    intro fr
    constructor
    · intro hm
      rcases List.mem_map.mp hm with ⟨pair, hmem, hfst⟩
      rcases List.mem_filter.mp hmem with ⟨hmemh, hf⟩
      cases pair with
      | mk m' hl =>
        cases hfst
        refine ⟨hl, hmemh, ?_, ?_⟩
        · have := (Bool.and_eq_true _ _).mp hf
          simpa using this.1
        · have := (Bool.and_eq_true _ _).mp hf
          cases fr <;> simpa using this.2
    · rintro ⟨hl, hmemh, hlen, hcase⟩
      refine List.mem_map.mpr ⟨(m, hl), List.mem_filter.mpr ⟨hmemh, ?_⟩, rfl⟩
      apply (Bool.and_eq_true _ _).mpr
      refine ⟨by simpa using hlen, ?_⟩
      cases fr with
      | none =>
        rcases hcase with ⟨_, hnm⟩ | ⟨hne, _⟩
        · simpa using hnm
        · exact absurd rfl hne
      | some i =>
        rcases hcase with ⟨hne, _⟩ | ⟨_, hnm⟩
        · exact absurd hne (by simp)
        · simpa using hnm
  refine ⟨hcond, hwriter, hplot freq, ?_, ?_⟩
  · intro i hboth
    rcases hboth with ⟨h1, h2⟩
    simp [should_write_metric] at h1 h2
    exact h1 h2
  · intro i hboth
    rcases hboth with ⟨h1, h2⟩
    rcases (hplot none).mp h1 with ⟨_, _, _, hc1⟩
    rcases (hplot (some i)).mp h2 with ⟨_, _, _, hc2⟩
    rcases hc1 with ⟨_, hnm⟩ | ⟨hne, _⟩
    · rcases hc2 with ⟨hne2, _⟩ | ⟨_, hm2⟩
      · exact absurd hne2 (by simp)
      · exact hnm hm2
    · exact absurd rfl hne
